import Mathlib

/-!
Verification development for the s3manager repository: a browser-based file
manager over an object-storage bucket. The server routes (list, delete,
upload, move, presign, download-folder) and the client-side grouping and
bulk-delete logic are shallowly embedded below; strings are modelled as
lists of characters so that the JavaScript string operations (slice, split,
replace of one leading separator) have direct, inductively analysable
counterparts.
-/

namespace S3Manager

/-- Keys, path fragments and URL text are JavaScript strings; we model them
as lists of characters. -/
abbrev Key := List Char

/-- Object content bytes (the result of arrayBuffer), modelled as a list of
byte values. -/
abbrev Bytes := List Nat

/-- One entry of an S3 listing, as consumed by the routes and the UI
(the size, lastModified and eTag fields are never inspected by the logic
we verify, only the key is). An absent or empty key is modelled as []. -/
structure S3Obj where
  key : Key
  size : Option Nat := none
deriving DecidableEq, Repr

/-- JavaScript replace of the regular expression anchored-leading-slash with
the empty string: removes at most one leading separator character. -/
def dropSlash (s : Key) : Key :=
  match s with
  | '/' :: rest => rest
  | other => other

/-- JavaScript String.split with a single-character separator: splitting the
empty string yields one empty component, and every separator occurrence
starts a new component. -/
def splitChar (c : Char) : Key → List Key
  | [] => [[]]
  | x :: rest =>
    let r := splitChar c rest
    if x = c then [] :: r
    else
      match r with
      | h :: t => (x :: h) :: t
      | [] => [[x]]

/-- The relative-path computation shared by the download-folder route and the
FileBrowser grouping: when the path filter is non-empty the key is sliced
past its length and one leading separator is removed; when it is empty the
key is used verbatim (the JavaScript conditional takes the falsy branch). -/
def relPath (pfx key : Key) : Key :=
  if pfx = [] then key
  else dropSlash (key.drop pfx.length)

/-- The entry-name rule the specification states uniformly for every path
filter, the empty one included: the key with the leading filter removed and
one leading separator removed. Used to compare the specified naming rule
with the relPath computation of the source. -/
def specEntryName (pfx key : Key) : Key :=
  dropSlash (key.drop pfx.length)

/-- The download-folder route's folder-name computation:
split the path filter on the separator, keep the non-empty segments, take the
last one; fall back to the fixed name when none remains. -/
def folderNameOf (pfx : Key) : Key :=
  match ((splitChar '/' pfx).filter (fun p => !p.isEmpty)).getLast? with
  | some s => s
  | none => "download".toList

/-- The suggested attachment filename of the download-folder response. -/
def suggestedName (pfx : Key) : Key :=
  folderNameOf pfx ++ ".zip".toList

example : relPath "a".toList "a/b.txt".toList = "b.txt".toList := by decide
example : relPath "".toList "/a.txt".toList = "/a.txt".toList := by decide
example : suggestedName "a".toList = "a.zip".toList := by decide
example : suggestedName "///".toList = "download.zip".toList := by decide
example : splitChar '/' "a/".toList = ["a".toList, []] := by decide

/-! ### The object-storage backend

The routes delegate every storage operation to the Bun S3 client. We model
the bucket contents as a map from keys to bytes, and inject failures through
a static failure specification: an operation whose flag is set throws, which
the embedded handlers observe as an Except error (an awaited rejection). A
read of an absent key also throws (arrayBuffer of a missing object rejects
with a not-found error). -/

/-- Bucket state: which bytes live at each key. -/
def Store := Key → Option Bytes

/-- Overwrite-or-create semantics of a put at a key. -/
def Store.put (st : Store) (k : Key) (v : Bytes) : Store :=
  fun k2 => if k2 = k then some v else st k2

/-- Removal semantics of a delete at a key (absent keys stay absent). -/
def Store.del (st : Store) (k : Key) : Store :=
  fun k2 => if k2 = k then none else st k2

/-- Which backend calls reject: one flag per operation kind and key. -/
structure FailSpec where
  failRead : Key → Bool
  failWrite : Key → Bool
  failDelete : Key → Bool

/-- Full-content read (arrayBuffer): rejects when the failure flag is set or
the key is absent, otherwise yields the stored bytes. -/
def s3read (fl : FailSpec) (st : Store) (k : Key) : Except Unit Bytes :=
  if fl.failRead k then .error ()
  else
    match st k with
    | some v => .ok v
    | none => .error ()

/-- Write (file.write): rejects when flagged, otherwise stores the bytes. -/
def s3write (fl : FailSpec) (st : Store) (k : Key) (v : Bytes) :
    Except Unit Store :=
  if fl.failWrite k then .error () else .ok (st.put k v)

/-- Delete (file.delete): rejects when flagged, otherwise removes the key. -/
def s3delete (fl : FailSpec) (st : Store) (k : Key) : Except Unit Store :=
  if fl.failDelete k then .error () else .ok (st.del k)

/-! ### POST /api/move (src/routes/api.move.ts)

The handler awaits, in order: arrayBuffer at oldKey, write of those bytes at
newKey, delete at oldKey. A rejection at any await aborts the remaining
steps; there is no compensation. We record the attempted backend calls in a
trace alongside the success flag and the resulting bucket state. -/

/-- One backend call as it appears in a handler trace. -/
inductive S3Call where
  | read (k : Key)
  | write (k : Key) (v : Bytes)
  | delete (k : Key)
deriving DecidableEq, Repr

/-- Outcome of the move handler: whether it returned the success response,
the bucket state afterwards, and the backend calls it issued. -/
structure MoveResult where
  success : Bool
  state : Store
  trace : List S3Call

/-- The POST /api/move handler body: read oldKey fully, write the content to
newKey, then delete oldKey, stopping at the first rejection. -/
def moveHandler (fl : FailSpec) (st : Store) (oldKey newKey : Key) :
    MoveResult :=
  match s3read fl st oldKey with
  | .error _ => ⟨false, st, [.read oldKey]⟩
  | .ok content =>
    match s3write fl st newKey content with
    | .error _ => ⟨false, st, [.read oldKey, .write newKey content]⟩
    | .ok st1 =>
      match s3delete fl st1 oldKey with
      | .error _ =>
        ⟨false, st1, [.read oldKey, .write newKey content, .delete oldKey]⟩
      | .ok st2 =>
        ⟨true, st2, [.read oldKey, .write newKey content, .delete oldKey]⟩

/-- A failure specification under which every backend call succeeds. -/
def noFail : FailSpec := ⟨fun _ => false, fun _ => false, fun _ => false⟩

/-- A tiny concrete bucket used by witnesses: one object at key a. -/
def storeA : Store :=
  fun k => if k = "a".toList then some [1, 2] else none

example : (moveHandler noFail storeA "a".toList "b".toList).success = true := by
  decide
example :
    (moveHandler noFail storeA "a".toList "b".toList).state "b".toList
      = some [1, 2] := by decide
example :
    (moveHandler noFail storeA "a".toList "a".toList).state "a".toList
      = none := by decide

/-! ### GET /api/download-folder (src/routes/api.delete.ts)

The handler lists under the query path filter (maxKeys 1000), then for each
listed object with a truthy key awaits its full content, computes the
relative path, and adds a ZIP entry when that path is non-empty. Any awaited
rejection (the listing itself, or any per-object read) escapes the handler,
so the response is either the complete archive or a single failure. -/

/-- One entry of the assembled archive. -/
structure ZipEntry where
  name : Key
  content : Bytes
deriving DecidableEq, Repr

/-- The per-object loop of the download-folder handler: skip falsy keys,
fetch the content (a rejection aborts the whole loop), then add an entry
under the relative path unless that path is empty. The content is fetched
before the relative path is tested, as in the source. -/
def buildZip (readFn : Key → Except Unit Bytes) (pfx : Key) :
    List S3Obj → Except Unit (List ZipEntry)
  | [] => .ok []
  | f :: rest =>
    if f.key.isEmpty then buildZip readFn pfx rest
    else
      match readFn f.key with
      | .error e => .error e
      | .ok content =>
        let rel := relPath pfx f.key
        if rel.isEmpty then buildZip readFn pfx rest
        else
          match buildZip readFn pfx rest with
          | .error e => .error e
          | .ok entries => .ok (⟨rel, content⟩ :: entries)

/-- The GET /api/download-folder handler body: list under the path filter
(contents may be absent, defaulting to the empty list), assemble the
archive, and attach the suggested filename. A listing rejection or any
read rejection yields a single terminal error and no archive. -/
def downloadFolder (listRes : Except Unit (Option (List S3Obj)))
    (readFn : Key → Except Unit Bytes) (pfx : Key) :
    Except Unit (List ZipEntry × Key) :=
  match listRes with
  | .error e => .error e
  | .ok contents =>
    let files := contents.getD []
    match buildZip readFn pfx files with
    | .error e => .error e
    | .ok entries => .ok (entries, suggestedName pfx)

example :
    buildZip (fun _ => .ok [49]) "a".toList [⟨"a/x.txt".toList, none⟩]
      = .ok [⟨"x.txt".toList, [49]⟩] := by rfl

/-! ### GET /api/presign (src/routes/api.presign.ts)

The handler reads the key query parameter (null when absent), computes
expiresIn as parseInt of the expiresIn parameter defaulted to the literal
3600, answers 400 when the key is falsy (absent or empty), and otherwise
delegates to the backend presign capability. -/

/-- JavaScript parseInt restricted to the shapes this route can meet:
optional leading spaces and sign, then leading decimal digits; none stands
for NaN (no digits to parse). -/
def jsParseInt (s : Key) : Option Int :=
  let trimmed := s.dropWhile (fun c => c = ' ')
  let signed : Bool × Key :=
    match trimmed with
    | '-' :: rest => (true, rest)
    | '+' :: rest => (false, rest)
    | other => (false, other)
  let digits := signed.2.takeWhile (fun c => c.isDigit)
  if digits.isEmpty then none
  else
    let n := digits.foldl (fun acc c => acc * 10 + (c.toNat - '0'.toNat)) 0
    some (if signed.1 then -(n : Int) else (n : Int))

/-- The two response shapes of the presign route: status 400 with an error
body, or status 200 with a url body. -/
inductive PresignResp where
  | badRequest (error : Key)
  | okUrl (url : Key)
deriving DecidableEq, Repr

/-- The GET /api/presign handler body. The backend presign capability is a
parameter taking the key and the expiry value handed to it (none models a
NaN expiry). -/
def presignHandler (presignFn : Key → Option Int → Key)
    (keyParam expiresParam : Option Key) : PresignResp :=
  let expiresIn := jsParseInt (expiresParam.getD "3600".toList)
  match keyParam with
  | none => .badRequest "Key is required".toList
  | some k =>
    if k.isEmpty then .badRequest "Key is required".toList
    else .okUrl (presignFn k expiresIn)

example : jsParseInt "3600".toList = some 3600 := by decide
example :
    presignHandler (fun k _ => k) none none
      = .badRequest "Key is required".toList := by decide

/-! ### FileBrowser grouping (groupedObjects, src/unnamed/part_001)

The UI reduces the flat listing into folders and files: for each object the
relative path against currentPath is computed with the shared relPath rule;
an empty relative path is skipped, a single-component split goes to files,
and otherwise the first split component is appended to folders if not
already present. -/

/-- Accumulator of the grouping reduce: discovered folder names in discovery
order and the objects listed directly under the current path. -/
structure GroupAcc where
  folders : List Key
  files : List S3Obj
deriving DecidableEq, Repr

/-- One step of the grouping reduce, exactly the body of the reducer in the
FileBrowser component. -/
def groupStep (currentPath : Key) (acc : GroupAcc) (obj : S3Obj) : GroupAcc :=
  let rel := relPath currentPath obj.key
  if rel.isEmpty then acc
  else
    let parts := splitChar '/' rel
    if parts.length = 1 then { acc with files := acc.files ++ [obj] }
    else
      let folderName := parts.headD []
      if acc.folders.contains folderName then acc
      else { acc with folders := acc.folders ++ [folderName] }

/-- The full grouping: fold the reducer over the listing starting from empty
folders and files. -/
def groupedObjects (objects : List S3Obj) (currentPath : Key) : GroupAcc :=
  objects.foldl (groupStep currentPath) ⟨[], []⟩

example :
    groupedObjects [⟨"a/b.txt".toList, none⟩, ⟨"a/c/d.txt".toList, none⟩]
        "a".toList
      = ⟨["c".toList], [⟨"a/b.txt".toList, none⟩]⟩ := by decide

/-! ### handleEmptyBucket (src/routes/index.tsx)

The client lists the whole bucket, returns early when contents is absent or
empty, and otherwise loops over the listed objects: each truthy key is
deleted through a fetch of POST /api/delete and a counter is incremented.
The fetch promise rejects only on a network-level failure — an unsuccessful
HTTP response still resolves and is counted, because the response status is
never inspected. A rejection aborts the loop into the catch block, whose
toast carries no count; the success toast with the counter is shown only
when the loop completes. -/

/-- How one delete fetch can end, as seen by the awaiting client loop. -/
inductive DeleteOutcome where
  | reject
  | respFail
  | respOk
deriving DecidableEq, Repr

/-- What the user is told at the end of handleEmptyBucket: the early-exit
info toast, the success toast carrying the counter, or the generic failure
toast of the catch block. -/
inductive EmptyBucketReport where
  | alreadyEmpty
  | successCount (count : Nat)
  | genericFailure
deriving DecidableEq, Repr

/-- Result of the empty-bucket flow: the toast shown, the keys whose backend
delete actually succeeded (in order), and the final value of the internal
counter. -/
structure EmptyBucketResult where
  report : EmptyBucketReport
  deletedKeys : List Key
  counter : Nat
deriving DecidableEq, Repr

/-- The delete loop of handleEmptyBucket. A rejection stops everything with
the counter as it stands; a resolved response, successful or not, increments
the counter and the loop continues; only a successful response removes the
object. -/
def emptyLoop (outcome : Key → DeleteOutcome) :
    List S3Obj → Nat → List Key → Bool × Nat × List Key
  | [], n, deleted => (true, n, deleted)
  | o :: rest, n, deleted =>
    if o.key.isEmpty then emptyLoop outcome rest n deleted
    else
      match outcome o.key with
      | .reject => (false, n, deleted)
      | .respFail => emptyLoop outcome rest (n + 1) deleted
      | .respOk => emptyLoop outcome rest (n + 1) (deleted ++ [o.key])

/-- The handleEmptyBucket flow over the listing it fetched (none models an
absent contents field). -/
def handleEmptyBucket (outcome : Key → DeleteOutcome)
    (contents : Option (List S3Obj)) : EmptyBucketResult :=
  match contents with
  | none => ⟨.alreadyEmpty, [], 0⟩
  | some objs =>
    if objs.isEmpty then ⟨.alreadyEmpty, [], 0⟩
    else
      match emptyLoop outcome objs 0 [] with
      | (true, n, deleted) => ⟨.successCount n, deleted, n⟩
      | (false, n, deleted) => ⟨.genericFailure, deleted, n⟩

example :
    handleEmptyBucket (fun _ => .respOk)
        (some [⟨"a".toList, none⟩, ⟨"b".toList, none⟩])
      = ⟨.successCount 2, ["a".toList, "b".toList], 2⟩ := by decide

/-! ### Helper lemmas -/

theorem splitChar_ne_nil (c : Char) (s : Key) : splitChar c s ≠ [] := by
  induction s with
  | nil => simp [splitChar]
  | cons x rest ih =>
    simp only [splitChar]
    split
    · simp
    · cases h : splitChar c rest with
      | nil => simp
      | cons hd tl => simp

theorem not_mem_of_mem_splitChar {c : Char} {s p : Key}
    (hp : p ∈ splitChar c s) : c ∉ p := by
  induction s generalizing p with
  | nil =>
    simp [splitChar] at hp
    simp [hp]
  | cons x rest ih =>
    simp only [splitChar] at hp
    by_cases hx : x = c
    · rw [if_pos hx] at hp
      rcases List.mem_cons.mp hp with h | h
      · simp [h]
      · exact ih h
    · rw [if_neg hx] at hp
      cases hsp : splitChar c rest with
      | nil => exact absurd hsp (splitChar_ne_nil c rest)
      | cons hd tl =>
        rw [hsp] at hp
        rcases List.mem_cons.mp hp with h | h
        · subst h
          intro hmem
          rcases List.mem_cons.mp hmem with h1 | h1
          · exact hx h1.symm
          · exact ih (hsp ▸ List.mem_cons_self hd tl) h1
        · exact ih (hsp ▸ List.mem_cons_of_mem hd h)

theorem head_mem_splitChar (c : Char) (s : Key) :
    (splitChar c s).headD [] ∈ splitChar c s := by
  cases h : splitChar c s with
  | nil => exact absurd h (splitChar_ne_nil c s)
  | cons hd tl => simp

theorem segments_nil_iff (s : Key) :
    ((splitChar '/' s).filter (fun p => !p.isEmpty)) = [] ↔
      ∀ c ∈ s, c = '/' := by
  induction s with
  | nil => simp [splitChar]
  | cons x rest ih =>
    simp only [splitChar]
    by_cases hx : x = '/'
    · rw [if_pos hx]
      have hfe : (([] :: splitChar '/' rest).filter (fun p => !p.isEmpty))
          = ((splitChar '/' rest).filter (fun p => !p.isEmpty)) := by
        simp
      rw [hfe, ih]
      constructor
      · intro h y hy
        rcases List.mem_cons.mp hy with h1 | h1
        · exact h1.trans hx
        · exact h y h1
      · intro h y hy
        exact h y (List.mem_cons_of_mem x hy)
    · rw [if_neg hx]
      cases hsp : splitChar '/' rest with
      | nil => exact absurd hsp (splitChar_ne_nil '/' rest)
      | cons hd tl =>
        simp only [List.filter_cons, List.isEmpty_cons, Bool.not_false]
        constructor
        · intro h
          simp at h
        · intro h
          exact absurd (h x (List.mem_cons_self x rest)) hx

theorem dropSlash_eq_nil_iff (t : Key) :
    dropSlash t = [] ↔ t = [] ∨ t = ['/'] := by
  cases t with
  | nil => simp [dropSlash]
  | cons x r =>
    by_cases hx : x = '/'
    · subst hx
      simp [dropSlash]
    · have hd : dropSlash (x :: r) = x :: r := by
        unfold dropSlash
        split
        · next h => simp at h; exact absurd h.1 hx
        · rfl
      rw [hd]
      simp [hx]

theorem s3read_ok {fl : FailSpec} {st : Store} {k : Key} {c : Bytes}
    (h : s3read fl st k = .ok c) : st k = some c := by
  unfold s3read at h
  split at h
  · exact Except.noConfusion h
  · cases hst : st k with
    | none => rw [hst] at h; exact Except.noConfusion h
    | some v =>
      rw [hst] at h
      simp only [Except.ok.injEq] at h
      rw [h]

theorem s3write_ok {fl : FailSpec} {st : Store} {k : Key} {v : Bytes}
    {st1 : Store} (h : s3write fl st k v = .ok st1) : st1 = st.put k v := by
  unfold s3write at h
  split at h
  · exact Except.noConfusion h
  · simp only [Except.ok.injEq] at h
    exact h.symm

theorem s3delete_ok {fl : FailSpec} {st : Store} {k : Key} {st1 : Store}
    (h : s3delete fl st k = .ok st1) : st1 = st.del k := by
  unfold s3delete at h
  split at h
  · exact Except.noConfusion h
  · simp only [Except.ok.injEq] at h
    exact h.symm

theorem Store.put_self (st : Store) (k : Key) (v : Bytes) :
    st.put k v k = some v := by
  simp [Store.put]

theorem Store.put_other (st : Store) (k k2 : Key) (v : Bytes)
    (h : k2 ≠ k) : st.put k v k2 = st k2 := by
  simp [Store.put, h]

theorem Store.del_self (st : Store) (k : Key) : st.del k k = none := by
  simp [Store.del]

theorem Store.del_other (st : Store) (k k2 : Key) (h : k2 ≠ k) :
    st.del k k2 = st k2 := by
  simp [Store.del, h]

theorem foldl_groupStep_files (cp : Key) (objs : List S3Obj) (acc : GroupAcc) :
    (objs.foldl (groupStep cp) acc).files =
      acc.files ++ objs.filter (fun o =>
        !(relPath cp o.key).isEmpty
          && ((splitChar '/' (relPath cp o.key)).length == 1)) := by
  induction objs generalizing acc with
  | nil => simp
  | cons o rest ih =>
    rw [List.foldl_cons, ih, List.filter_cons]
    by_cases h1 : (relPath cp o.key).isEmpty
    · simp [groupStep, h1]
    · by_cases h2 : (splitChar '/' (relPath cp o.key)).length = 1
      · simp [groupStep, h1, h2]
      · have hcond : (!(relPath cp o.key).isEmpty
            && ((splitChar '/' (relPath cp o.key)).length == 1)) = false := by
          simp [h2]
        simp only [hcond, Bool.false_eq_true, if_false, groupStep,
          if_neg h1, if_neg h2]
        split <;> rfl

theorem foldl_groupStep_folders_mem (cp : Key) (objs : List S3Obj)
    (acc : GroupAcc) (f : Key) :
    f ∈ (objs.foldl (groupStep cp) acc).folders ↔
      f ∈ acc.folders ∨ ∃ o ∈ objs,
        (relPath cp o.key).isEmpty = false ∧
        2 ≤ (splitChar '/' (relPath cp o.key)).length ∧
        (splitChar '/' (relPath cp o.key)).headD [] = f := by
  induction objs generalizing acc with
  | nil => simp
  | cons o rest ih =>
    rw [List.foldl_cons, ih]
    simp only [List.mem_cons, exists_eq_or_imp]
    by_cases h1 : (relPath cp o.key).isEmpty
    · simp [groupStep, h1]
    · by_cases h2 : (splitChar '/' (relPath cp o.key)).length = 1
      · have hle : ¬2 ≤ (splitChar '/' (relPath cp o.key)).length := by
          omega
        simp [groupStep, h1, h2, hle]
      · have hpos : 0 < (splitChar '/' (relPath cp o.key)).length :=
          List.length_pos.mpr (splitChar_ne_nil '/' (relPath cp o.key))
        have hle : 2 ≤ (splitChar '/' (relPath cp o.key)).length := by
          omega
        simp only [groupStep, if_neg h1, if_neg h2]
        by_cases h3 :
            acc.folders.contains ((splitChar '/' (relPath cp o.key)).headD [])
        · have hmem : (splitChar '/' (relPath cp o.key)).headD []
              ∈ acc.folders := by simpa using h3
          rw [if_pos h3]
          simp only [eq_self_iff_true, h1, hle, true_and]
          constructor
          · intro h
            tauto
          · rintro (h | h | h)
            · tauto
            · rw [← h]
              exact Or.inl hmem
            · tauto
        · rw [if_neg h3]
          simp only [List.mem_append, List.mem_singleton]
          simp only [h1, hle, true_and]
          constructor
          · rintro ((h | h) | h)
            · tauto
            · exact Or.inr (Or.inl h.symm)
            · tauto
          · rintro (h | h | h)
            · tauto
            · exact Or.inl (Or.inr h.symm)
            · tauto

theorem buildZip_error (readFn : Key → Except Unit Bytes) (pfx : Key)
    (files : List S3Obj) (f : S3Obj) (hf : f ∈ files)
    (hkey : f.key.isEmpty = false) (hread : readFn f.key = .error ()) :
    buildZip readFn pfx files = .error () := by
  induction files with
  | nil => cases hf
  | cons g rest ih =>
    rcases List.mem_cons.mp hf with h | h
    · subst h
      simp [buildZip, hkey, hread]
    · simp only [buildZip]
      by_cases hg : g.key.isEmpty
      · simp [hg, ih h]
      · cases hr : readFn g.key with
        | error e => simp [hg, hr]
        | ok content =>
          by_cases hrel : (relPath pfx g.key).isEmpty
          · simp [hg, hr, hrel, ih h]
          · simp [hg, hr, hrel, ih h]

theorem buildZip_total (g : Key → Bytes) (pfx : Key) (files : List S3Obj) :
    buildZip (fun k => .ok (g k)) pfx files =
      .ok ((files.filter (fun f =>
          !f.key.isEmpty && !(relPath pfx f.key).isEmpty)).map
        (fun f => (⟨relPath pfx f.key, g f.key⟩ : ZipEntry))) := by
  induction files with
  | nil => simp [buildZip]
  | cons f rest ih =>
    simp only [buildZip, List.filter_cons]
    by_cases h1 : f.key.isEmpty
    · simp [h1, ih]
    · by_cases h2 : (relPath pfx f.key).isEmpty
      · simp [h1, h2, ih]
      · simp [h1, h2, ih]

theorem emptyLoop_reject_eq (outcome : Key → DeleteOutcome)
    (done : List S3Obj) (bad : S3Obj) (rest : List S3Obj)
    (hdone : ∀ o ∈ done, o.key.isEmpty = false ∧ outcome o.key = .respOk)
    (hbadkey : bad.key.isEmpty = false) (hbad : outcome bad.key = .reject) :
    ∀ n deleted, emptyLoop outcome (done ++ bad :: rest) n deleted
      = (false, n + done.length, deleted ++ done.map (fun o => o.key)) := by
  induction done with
  | nil =>
    intro n deleted
    simp [emptyLoop, hbadkey, hbad]
  | cons d ds ih =>
    intro n deleted
    have hd := hdone d (List.mem_cons_self d ds)
    have ihrec := ih (fun o ho => hdone o (List.mem_cons_of_mem d ho))
    simp only [List.cons_append, emptyLoop, hd.1, hd.2, Bool.false_eq_true,
      if_false, List.append_eq]
    rw [ihrec]
    simp only [Prod.mk.injEq, List.map_cons, List.length_cons,
      List.append_assoc, List.singleton_append]
    exact ⟨trivial, by omega, trivial⟩

theorem relPath_append (cp t : Key) (hcp : cp ≠ []) :
    relPath cp (cp ++ t) = dropSlash t := by
  unfold relPath
  rw [if_neg hcp, List.drop_left]

/-! ### Claim theorems -/

/-- C2: for oldKey different from newKey, when every backend step succeeds
the move handler issues read(oldKey), write(newKey), delete(oldKey) in that
order, and afterwards oldKey is absent, newKey holds the pre-move bytes of
oldKey, and every other key is unchanged. -/
theorem move_success_spec (fl : FailSpec) (st : Store) (oldKey newKey : Key)
    (hne : oldKey ≠ newKey)
    (hs : (moveHandler fl st oldKey newKey).success = true) :
    ∃ c, st oldKey = some c ∧
      (moveHandler fl st oldKey newKey).trace
        = [.read oldKey, .write newKey c, .delete oldKey] ∧
      (moveHandler fl st oldKey newKey).state oldKey = none ∧
      (moveHandler fl st oldKey newKey).state newKey = some c ∧
      ∀ k, k ≠ oldKey → k ≠ newKey →
        (moveHandler fl st oldKey newKey).state k = st k := by
  cases hr : s3read fl st oldKey with
  | error e => simp [moveHandler, hr] at hs
  | ok c =>
    cases hw : s3write fl st newKey c with
    | error e => simp [moveHandler, hr, hw] at hs
    | ok st1 =>
      cases hd : s3delete fl st1 oldKey with
      | error e => simp [moveHandler, hr, hw, hd] at hs
      | ok st2 =>
        have hstc := s3read_ok hr
        have hst1 : st1 = st.put newKey c := s3write_ok hw
        have hst2 : st2 = st1.del oldKey := s3delete_ok hd
        refine ⟨c, hstc, ?_, ?_, ?_, ?_⟩
        · simp [moveHandler, hr, hw, hd]
        · simp [moveHandler, hr, hw, hd, hst2, Store.del_self]
        · simp only [moveHandler, hr, hw, hd]
          rw [hst2, Store.del_other st1 oldKey newKey (Ne.symm hne), hst1,
            Store.put_self]
        · intro k hk1 hk2
          simp only [moveHandler, hr, hw, hd]
          rw [hst2, Store.del_other st1 oldKey k hk1, hst1,
            Store.put_other st newKey k c hk2]

/-- Witness for C2 at a concrete one-object bucket: moving key a to key b
with no injected failures empties a, fills b with the original bytes, and
leaves an unrelated key untouched. -/
theorem move_success_spec_witness :
    (moveHandler noFail storeA "a".toList "b".toList).state "a".toList = none
      ∧ (moveHandler noFail storeA "a".toList "b".toList).state "b".toList
          = some [1, 2]
      ∧ (moveHandler noFail storeA "a".toList "b".toList).state "c".toList
          = none
      ∧ (moveHandler noFail storeA "a".toList "b".toList).trace
          = [.read "a".toList, .write "b".toList [1, 2],
             .delete "a".toList] := by
  obtain ⟨c, hc, htr, ho, hn, hrest⟩ :=
    move_success_spec noFail storeA "a".toList "b".toList (by decide)
      (by decide)
  have hc2 : c = [1, 2] := by
    have : some ([1, 2] : Bytes) = some c := hc ▸ rfl
    exact (Option.some.injEq _ _ ▸ this).symm
  subst hc2
  have hu : (moveHandler noFail storeA "a".toList "b".toList).state "c".toList
      = storeA "c".toList :=
    hrest "c".toList (by decide) (by decide)
  exact ⟨ho, hn, hu.trans rfl, htr⟩

/-- C7: a rejection at any of the three move steps aborts the remaining
steps with no compensation: a read rejection leaves the bucket untouched
after only the read call, a write rejection leaves it untouched after read
and write calls, and a delete rejection after a successful write leaves the
written state in place, so for distinct keys both oldKey and newKey hold
the content. -/
theorem move_failure_spec (fl : FailSpec) (st : Store) (oldKey newKey : Key) :
    (∀ e, s3read fl st oldKey = .error e →
       moveHandler fl st oldKey newKey = ⟨false, st, [.read oldKey]⟩) ∧
    (∀ c e, s3read fl st oldKey = .ok c →
       s3write fl st newKey c = .error e →
       moveHandler fl st oldKey newKey
         = ⟨false, st, [.read oldKey, .write newKey c]⟩) ∧
    (∀ c st1 e, s3read fl st oldKey = .ok c →
       s3write fl st newKey c = .ok st1 →
       s3delete fl st1 oldKey = .error e →
       (moveHandler fl st oldKey newKey).success = false ∧
       (moveHandler fl st oldKey newKey).trace
         = [.read oldKey, .write newKey c, .delete oldKey] ∧
       (moveHandler fl st oldKey newKey).state = st1 ∧
       (oldKey ≠ newKey →
         (moveHandler fl st oldKey newKey).state oldKey = some c ∧
         (moveHandler fl st oldKey newKey).state newKey = some c)) := by
  refine ⟨?_, ?_, ?_⟩
  · intro e hr
    simp [moveHandler, hr]
  · intro c e hr hw
    simp [moveHandler, hr, hw]
  · intro c st1 e hr hw hd
    have hstc := s3read_ok hr
    have hst1 : st1 = st.put newKey c := s3write_ok hw
    refine ⟨by simp [moveHandler, hr, hw, hd], by simp [moveHandler, hr, hw, hd],
      by simp [moveHandler, hr, hw, hd], ?_⟩
    intro hne
    constructor
    · simp only [moveHandler, hr, hw, hd]
      rw [hst1, Store.put_other st newKey oldKey c hne, hstc]
    · simp only [moveHandler, hr, hw, hd]
      rw [hst1, Store.put_self]

/-- Witness for C7 at a concrete bucket where only the delete call rejects:
the move of key a to key b fails after the write, and both keys hold the
original bytes. -/
theorem move_failure_spec_witness :
    (moveHandler ⟨fun _ => false, fun _ => false, fun _ => true⟩ storeA
        "a".toList "b".toList).success = false ∧
    (moveHandler ⟨fun _ => false, fun _ => false, fun _ => true⟩ storeA
        "a".toList "b".toList).state "a".toList = some [1, 2] ∧
    (moveHandler ⟨fun _ => false, fun _ => false, fun _ => true⟩ storeA
        "a".toList "b".toList).state "b".toList = some [1, 2] := by
  have h := (move_failure_spec
    ⟨fun _ => false, fun _ => false, fun _ => true⟩ storeA
    "a".toList "b".toList).2.2 [1, 2]
    (Store.put storeA "b".toList [1, 2]) () rfl rfl rfl
  exact ⟨h.1, (h.2.2.2 (by decide)).1, (h.2.2.2 (by decide)).2⟩

/-- C9: when the move handler is invoked with identical old and new keys and
every backend step succeeds, the trailing delete removes the single key, so
the object content present before the call is lost. -/
theorem move_same_key_spec (fl : FailSpec) (st : Store) (k : Key)
    (hs : (moveHandler fl st k k).success = true) :
    (∃ c, st k = some c) ∧ (moveHandler fl st k k).state k = none := by
  cases hr : s3read fl st k with
  | error e => simp [moveHandler, hr] at hs
  | ok c =>
    cases hw : s3write fl st k c with
    | error e => simp [moveHandler, hr, hw] at hs
    | ok st1 =>
      cases hd : s3delete fl st1 k with
      | error e => simp [moveHandler, hr, hw, hd] at hs
      | ok st2 =>
        have hst2 : st2 = st1.del k := s3delete_ok hd
        refine ⟨⟨c, s3read_ok hr⟩, ?_⟩
        simp [moveHandler, hr, hw, hd, hst2, Store.del_self]

/-- Witness for C9: moving key a onto itself in the one-object bucket
succeeds and leaves the bucket without the object. -/
theorem move_same_key_spec_witness :
    storeA "a".toList = some [1, 2] ∧
    (moveHandler noFail storeA "a".toList "a".toList).state "a".toList
      = none := by
  have h := move_same_key_spec noFail storeA "a".toList (by decide)
  exact ⟨rfl, h.2⟩

/-- C5: a rejected listing makes the download-folder handler fail with a
single terminal error, and so does a rejected content read of any listed
object with a truthy key; in both cases the result carries no archive at
all, so no partial ZIP of the objects fetched so far is returned. -/
theorem downloadFolder_failure_spec (readFn : Key → Except Unit Bytes)
    (pfx : Key) (files : List S3Obj) :
    (downloadFolder (.error ()) readFn pfx = .error ()) ∧
    (∀ f, f ∈ files → f.key.isEmpty = false → readFn f.key = .error () →
       buildZip readFn pfx files = .error () ∧
       downloadFolder (.ok (some files)) readFn pfx = .error ()) := by
  constructor
  · rfl
  · intro f hf hkey hread
    have hz := buildZip_error readFn pfx files f hf hkey hread
    exact ⟨hz, by simp [downloadFolder, hz]⟩

/-- Witness for C5: over a two-object listing whose second read rejects, the
handler yields the terminal error rather than a one-entry archive. -/
theorem downloadFolder_failure_spec_witness :
    downloadFolder (.ok (some [⟨"a/x".toList, none⟩, ⟨"a/y".toList, none⟩]))
        (fun k => if k = "a/y".toList then .error () else .ok [49])
        "a".toList
      = .error () := by
  have h := (downloadFolder_failure_spec
    (fun k => if k = "a/y".toList then .error () else .ok [49])
    "a".toList [⟨"a/x".toList, none⟩, ⟨"a/y".toList, none⟩]).2
    ⟨"a/y".toList, none⟩ (by decide) (by decide) (by simp)
  exact h.2

/-- C1 as stated is false: with the empty path filter the handler stores the
key verbatim as the entry name, without removing a leading separator, while
the claimed naming rule strips one leading separator even then. Concretely,
the key /a.txt under the empty filter yields the entry name /a.txt, not the
a.txt the claim requires. -/
theorem buildZip_emptyPfx_counterexample :
    buildZip (fun _ => .ok [49]) [] [⟨"/a.txt".toList, none⟩]
      = .ok [⟨"/a.txt".toList, [49]⟩] ∧
    specEntryName [] "/a.txt".toList = "a.txt".toList ∧
    ("/a.txt".toList : Key) ≠ "a.txt".toList := by
  exact ⟨rfl, by decide, by decide⟩

/-- C1 amended: when every content read succeeds, the archive holds exactly
one entry per listed object whose key is truthy and whose relative path is
non-empty, named by that relative path in listing order; for a non-empty
path filter the relative path is the key with the leading filter and one
leading separator removed (the specified rule), while for the empty filter
it is the key verbatim. -/
theorem buildZip_entries_spec (g : Key → Bytes) (pfx : Key)
    (files : List S3Obj) :
    buildZip (fun k => .ok (g k)) pfx files =
      .ok ((files.filter (fun f =>
          !f.key.isEmpty && !(relPath pfx f.key).isEmpty)).map
        (fun f => (⟨relPath pfx f.key, g f.key⟩ : ZipEntry))) ∧
    (pfx ≠ [] → ∀ key, relPath pfx key = specEntryName pfx key) ∧
    (∀ key, relPath [] key = key) := by
  refine ⟨buildZip_total g pfx files, ?_, ?_⟩
  · intro hpfx key
    simp [relPath, specEntryName, hpfx]
  · intro key
    simp [relPath]

/-- Witness for C1 amended: under filter a, the listing with keys a/x.txt
and a (the marker whose relative path is empty) produces the single entry
x.txt, and the relative path of a/x.txt agrees with the specified
strip-the-filter-and-one-separator rule. -/
theorem buildZip_entries_spec_witness :
    buildZip (fun _ => .ok [49]) "a".toList
        [⟨"a/x.txt".toList, none⟩, ⟨"a".toList, none⟩]
      = .ok [⟨"x.txt".toList, [49]⟩] ∧
    relPath "a".toList "a/x.txt".toList
      = specEntryName "a".toList "a/x.txt".toList := by
  have h := buildZip_entries_spec (fun _ => [49]) "a".toList
    [⟨"a/x.txt".toList, none⟩, ⟨"a".toList, none⟩]
  refine ⟨h.1.trans ?_, h.2.1 (by decide) "a/x.txt".toList⟩
  rfl

/-- C8: the suggested attachment name of the download-folder response is the
last non-empty separator-delimited segment of the path filter followed by
.zip, with the fixed fallback download.zip exactly when the filter is empty
or consists only of separators; every successful response carries this
name. -/
theorem suggestedName_spec (pfx : Key) :
    (∀ listRes readFn entries name,
       downloadFolder listRes readFn pfx = .ok (entries, name) →
       name = suggestedName pfx) ∧
    (((splitChar '/' pfx).filter (fun p => !p.isEmpty)) = []
       ↔ ∀ c ∈ pfx, c = '/') ∧
    (∀ s, ((splitChar '/' pfx).filter (fun p => !p.isEmpty)).getLast?
        = some s → suggestedName pfx = s ++ ".zip".toList) ∧
    ((∀ c ∈ pfx, c = '/') →
       suggestedName pfx = "download".toList ++ ".zip".toList) := by
  refine ⟨?_, segments_nil_iff pfx, ?_, ?_⟩
  · intro listRes readFn entries name h
    cases listRes with
    | error e => exact Except.noConfusion h
    | ok contents =>
      simp only [downloadFolder] at h
      cases hz : buildZip readFn pfx (contents.getD []) with
      | error e => rw [hz] at h; exact Except.noConfusion h
      | ok es =>
        rw [hz] at h
        simp only [Except.ok.injEq, Prod.mk.injEq] at h
        exact h.2.symm
  · intro s hs
    unfold suggestedName folderNameOf
    rw [hs]
  · intro hall
    unfold suggestedName folderNameOf
    rw [(segments_nil_iff pfx).mpr hall]
    rfl

/-- Witness for C8: the filter x/a/ yields the name a.zip, and the
all-separator filter // yields the fallback download.zip. -/
theorem suggestedName_spec_witness :
    suggestedName "x/a/".toList = "a.zip".toList ∧
    suggestedName "//".toList = "download.zip".toList := by
  have h1 := (suggestedName_spec "x/a/".toList).2.2.1 "a".toList (by decide)
  have h2 := (suggestedName_spec "//".toList).2.2.2 (by decide)
  exact ⟨h1.trans (by decide), h2.trans (by decide)⟩

/-- C6: the presign route answers 400 with the Key-is-required error body
exactly when the key parameter is absent or empty, and for a present
non-empty key it answers 200 with the url obtained from the backend presign
capability for that key. -/
theorem presign_spec (presignFn : Key → Option Int → Key)
    (keyParam expiresParam : Option Key) :
    (presignHandler presignFn keyParam expiresParam
        = .badRequest "Key is required".toList
      ↔ keyParam = none ∨ keyParam = some []) ∧
    (∀ k, keyParam = some k → k.isEmpty = false →
      presignHandler presignFn keyParam expiresParam
        = .okUrl (presignFn k
            (jsParseInt (expiresParam.getD "3600".toList)))) := by
  cases keyParam with
  | none =>
    constructor
    · simp [presignHandler]
    · intro k hk
      exact absurd hk (by simp)
  | some k =>
    by_cases hk : k.isEmpty
    · have hknil : k = [] := List.isEmpty_iff.mp hk
      constructor
      · simp [presignHandler, hk, hknil]
      · intro k2 hk2 hne
        rw [Option.some.injEq] at hk2
        rw [← hk2] at hne
        rw [hne] at hk
        exact absurd hk (by simp)
    · constructor
      · simp only [presignHandler, if_neg hk]
        constructor
        · intro h
          exact absurd h (by simp)
        · rintro (h | h)
          · exact absurd h (by simp)
          · rw [Option.some.injEq] at h
            rw [h] at hk
            exact absurd rfl hk
      · intro k2 hk2 hne
        rw [Option.some.injEq] at hk2
        subst hk2
        simp [presignHandler, hk]

/-- Witness for C6: with a backend that echoes the key, the route answers
400 for an absent key and 200 with the echoed url for the key a. -/
theorem presign_spec_witness :
    presignHandler (fun k _ => k) none none
      = .badRequest "Key is required".toList ∧
    presignHandler (fun k _ => k) (some "a".toList) none
      = .okUrl "a".toList := by
  constructor
  · exact (presign_spec (fun k _ => k) none none).1.mpr (Or.inl rfl)
  · exact (presign_spec (fun k _ => k) (some "a".toList) none).2
      "a".toList rfl (by decide)

/-- C10: a presign request with a present non-empty key and no expiresIn
parameter hands the backend capability an expiry of exactly 3600 seconds. -/
theorem presign_default_expiry (presignFn : Key → Option Int → Key)
    (k : Key) (hk : k.isEmpty = false) :
    presignHandler presignFn (some k) none = .okUrl (presignFn k (some 3600))
    := by
  have h36 : jsParseInt ['3', '6', '0', '0'] = some 3600 := by decide
  simp [presignHandler, hk, h36]

/-- Witness for C10 at the key a and a backend recording its expiry
argument. -/
theorem presign_default_expiry_witness :
    presignHandler (fun _ e => if e = some 3600 then "yes".toList else [])
        (some "a".toList) none
      = .okUrl "yes".toList := by
  have h := presign_default_expiry
    (fun _ e => if e = some 3600 then "yes".toList else [])
    "a".toList (by decide)
  exact h.trans (by simp)

/-- C4 as stated is false on the excluded-exact-match gloss: the key a/
under currentPath a has an empty relative path, so the grouping excludes it
from both buckets, yet the key starts with and differs from currentPath. -/
theorem grouping_excluded_counterexample :
    relPath "a".toList "a/".toList = [] ∧
    groupedObjects [⟨"a/".toList, none⟩] "a".toList = ⟨[], []⟩ ∧
    List.isPrefixOf "a".toList "a/".toList = true ∧
    ("a/".toList : Key) ≠ "a".toList := by
  exact ⟨by decide, by decide, by decide, by decide⟩

/-- C4 amended: the grouping classifies every listed object by its relative
path — excluded when the path is empty, a file when its separator split has
exactly one component, a folder contribution (the first split component)
when it has at least two — the three cases are exhaustive and mutually
exclusive, no produced folder name contains a separator, and for keys
extending a non-empty currentPath the excluded case means the key is
currentPath itself or currentPath followed by a single separator (for the
empty currentPath, exactly the empty key). -/
theorem grouping_spec (objs : List S3Obj) (cp : Key) :
    (∀ o, o ∈ (groupedObjects objs cp).files ↔ o ∈ objs ∧
        (relPath cp o.key).isEmpty = false ∧
        (splitChar '/' (relPath cp o.key)).length = 1) ∧
    (∀ f, f ∈ (groupedObjects objs cp).folders ↔ ∃ o ∈ objs,
        (relPath cp o.key).isEmpty = false ∧
        2 ≤ (splitChar '/' (relPath cp o.key)).length ∧
        (splitChar '/' (relPath cp o.key)).headD [] = f) ∧
    (∀ f, f ∈ (groupedObjects objs cp).folders → '/' ∉ f) ∧
    (∀ key : Key, (relPath cp key).isEmpty = true ∨
        ((relPath cp key).isEmpty = false ∧
          (splitChar '/' (relPath cp key)).length = 1) ∨
        ((relPath cp key).isEmpty = false ∧
          2 ≤ (splitChar '/' (relPath cp key)).length)) ∧
    (∀ key : Key, ¬((splitChar '/' (relPath cp key)).length = 1 ∧
        2 ≤ (splitChar '/' (relPath cp key)).length)) ∧
    (cp ≠ [] → ∀ t, (relPath cp (cp ++ t) = [] ↔ t = [] ∨ t = ['/'])) ∧
    (∀ key, relPath [] key = [] ↔ key = []) := by
  refine ⟨?_, ?_, ?_, ?_, ?_, ?_, ?_⟩
  · intro o
    unfold groupedObjects
    rw [foldl_groupStep_files cp objs ⟨[], []⟩]
    simp [List.mem_filter]
  · intro f
    unfold groupedObjects
    rw [foldl_groupStep_folders_mem cp objs ⟨[], []⟩ f]
    simp
  · intro f hf
    unfold groupedObjects at hf
    rw [foldl_groupStep_folders_mem cp objs ⟨[], []⟩ f] at hf
    simp only [List.not_mem_nil, false_or] at hf
    obtain ⟨o, _, _, _, hhead⟩ := hf
    rw [← hhead]
    exact not_mem_of_mem_splitChar (head_mem_splitChar '/' _)
  · intro key
    cases he : (relPath cp key).isEmpty
    · have hpos : 0 < (splitChar '/' (relPath cp key)).length :=
        List.length_pos.mpr (splitChar_ne_nil '/' (relPath cp key))
      by_cases h1 : (splitChar '/' (relPath cp key)).length = 1
      · exact Or.inr (Or.inl ⟨rfl, h1⟩)
      · exact Or.inr (Or.inr ⟨rfl, by omega⟩)
    · exact Or.inl rfl
  · intro key h
    omega
  · intro hcp t
    rw [relPath_append cp t hcp]
    exact dropSlash_eq_nil_iff t
  · intro key
    simp [relPath]

/-- Witness for C4 amended over the spec scenario listing: under
currentPath a, the keys a/b.txt and a/c/d.txt produce the single folder c
and the single file a/b.txt, and both characterizations instantiate. -/
theorem grouping_spec_witness :
    (⟨"a/b.txt".toList, none⟩ : S3Obj) ∈
      (groupedObjects [⟨"a/b.txt".toList, none⟩, ⟨"a/c/d.txt".toList, none⟩]
        "a".toList).files ∧
    "c".toList ∈
      (groupedObjects [⟨"a/b.txt".toList, none⟩, ⟨"a/c/d.txt".toList, none⟩]
        "a".toList).folders ∧
    ('/' ∉ ("c".toList : Key)) ∧
    (relPath "a".toList ("a".toList ++ "/".toList) = []) := by
  have h := grouping_spec
    [⟨"a/b.txt".toList, none⟩, ⟨"a/c/d.txt".toList, none⟩] "a".toList
  refine ⟨?_, ?_, ?_, ?_⟩
  · exact (h.1 ⟨"a/b.txt".toList, none⟩).mpr (by decide)
  · refine (h.2.1 "c".toList).mpr
      ⟨⟨"a/c/d.txt".toList, none⟩, by decide, by decide, by decide, by decide⟩
  · exact h.2.2.1 "c".toList
      ((h.2.1 "c".toList).mpr
        ⟨⟨"a/c/d.txt".toList, none⟩, by decide, by decide, by decide,
          by decide⟩)
  · exact (h.2.2.2.2.2.1 (by decide) "/".toList).mpr (Or.inr (by decide))

/-- C3 as stated is false on its reporting half: over a three-object bucket
whose second delete rejects, exactly the first object is deleted and the
loop halts, but the user-visible report is the generic failure toast, not a
report of the count 1. -/
theorem emptyBucket_report_counterexample :
    handleEmptyBucket
        (fun k => if k = "b".toList then DeleteOutcome.reject
          else DeleteOutcome.respOk)
        (some [⟨"a".toList, none⟩, ⟨"b".toList, none⟩, ⟨"c".toList, none⟩])
      = ⟨.genericFailure, ["a".toList], 1⟩ ∧
    (EmptyBucketReport.genericFailure ≠ .successCount 1) := by
  exact ⟨by decide, by decide⟩

/-- C3 amended: the empty-bucket flow deletes sequentially; when the calls
for a leading block of objects resolve successfully and the next call
rejects, the loop halts with exactly that block deleted, the remaining
objects (the rejected one included) untouched, the internal counter equal to
the block length — but the report shown to the caller is the generic
failure message, which carries no count. -/
theorem emptyBucket_reject_spec (outcome : Key → DeleteOutcome)
    (done : List S3Obj) (bad : S3Obj) (rest : List S3Obj)
    (hdone : ∀ o ∈ done, o.key.isEmpty = false ∧ outcome o.key = .respOk)
    (hbadkey : bad.key.isEmpty = false) (hbad : outcome bad.key = .reject) :
    handleEmptyBucket outcome (some (done ++ bad :: rest))
      = ⟨.genericFailure, done.map (fun o => o.key), done.length⟩ := by
  have hloop := emptyLoop_reject_eq outcome done bad rest hdone hbadkey hbad
    0 []
  simp only [Nat.zero_add, List.nil_append] at hloop
  have hne : (done ++ bad :: rest).isEmpty = false := by
    cases done <;> simp
  simp only [handleEmptyBucket, hne, Bool.false_eq_true, if_false]
  rw [hloop]

/-- Witness for C3 amended: four objects, the third rejecting — the first
two are deleted, the counter reads 2, and the generic failure is shown. -/
theorem emptyBucket_reject_spec_witness :
    handleEmptyBucket
        (fun k => if k = "r".toList then DeleteOutcome.reject
          else DeleteOutcome.respOk)
        (some [⟨"p".toList, none⟩, ⟨"q".toList, none⟩, ⟨"r".toList, none⟩,
          ⟨"s".toList, none⟩])
      = ⟨.genericFailure, ["p".toList, "q".toList], 2⟩ := by
  have h := emptyBucket_reject_spec
    (fun k => if k = "r".toList then DeleteOutcome.reject
      else DeleteOutcome.respOk)
    [⟨"p".toList, none⟩, ⟨"q".toList, none⟩] ⟨"r".toList, none⟩
    [⟨"s".toList, none⟩] (by decide) (by decide) (by decide)
  exact h.trans (by decide)

end S3Manager
